import Mathlib

/-!
Verification of the airfoildb repository's curvature-based B-spline
resampling pipeline and its surrounding I/O drivers.

The numerical kernel (`curvature_based_bspline` in `src/airfoildb/bspline.py`,
duplicated verbatim in `src/bin/bspline.py`) composes:
  * `scipy.interpolate.splprep`  — external spline fitter (abstracted below as
    a `CurveModel`: the fitted evaluators for derivative orders 0, 1, 2 plus
    the parameter domain endpoints `u.min()` / `u.max()`);
  * `np.linspace`                — embedded as `linspace`;
  * the curvature formula        — embedded as `curvAt` / `curvArray`;
  * `scipy.integrate.cumtrapz`   — embedded as `cumtrapz` (with `initial=0.0`);
  * `np.max` (`.max()`)          — embedded as `npmax`;
  * `scipy.interpolate.interp1d` — embedded as `interp1d` (piecewise linear,
    the default `kind='linear'`; on in-range inputs the segment formula below
    agrees with scipy's searchsorted-based segment selection).

The list-processing stages are defined over an arbitrary linear ordered field
so that exact-arithmetic statements can be both proved in general and
evaluated on concrete rational inputs; the curvature stage, which uses the
real power `** 1.5`, is stated over `ℝ`.
-/

namespace AirfoilDB

variable {F : Type} [LinearOrderedField F]

/-- `np.linspace(a, b, n)`: `n` evenly spaced values from `a` to `b`
(inclusive).  For `n = 1` numpy returns `[a]`, which the formula below also
yields since division by the zero cast of `n - 1` is zero. -/
def linspace (a b : F) (n : ℕ) : List F :=
  (List.range n).map (fun i : ℕ => a + (i : F) * (b - a) / ((n - 1 : ℕ) : F))

/-- `arr.max()` for a numpy array: the greatest element (junk value 0 on the
empty list, which numpy rejects; never reached by the pipeline). -/
def npmax : List F → F
  | [] => 0
  | x :: xs => xs.foldl max x

/-- Total last element (0 on the empty list); mirrors indexing `arr[-1]`. -/
def lastD (l : List F) : F := l.getLast?.getD 0

/-- Worker for `scipy.integrate.cumtrapz(y, x, initial=0.0)`: `acc` is the
running integral; each step adds the trapezoid `(x₁ - x₀) * (y₁ + y₀) / 2`. -/
def cumtrapzAux : List F → List F → F → List F
  | y0 :: y1 :: ys, x0 :: x1 :: xs, acc =>
      acc :: cumtrapzAux (y1 :: ys) (x1 :: xs) (acc + (x1 - x0) * (y1 + y0) / 2)
  | _, _, acc => [acc]

/-- `scipy.integrate.cumtrapz(y, x, initial=0.0)`. -/
def cumtrapz (y x : List F) : List F := cumtrapzAux y x 0

/-- `scipy.interpolate.interp1d(xs, ys)(x)`: piecewise-linear interpolation.
On each segment `[x₀, x₁]` the value is `y₀ + (x - x₀)·(y₁ - y₀)/(x₁ - x₀)`.
For in-range `x` over strictly increasing `xs` this agrees with scipy's
segment selection (segment boundaries give the same value from either side);
out-of-range behaviour is irrelevant to the pipeline, which only ever
evaluates inside `[xs.head, xs.last]`. -/
def interp1d : List F → List F → F → F
  | x0 :: x1 :: xs, y0 :: y1 :: ys, x =>
      if x ≤ x1 then y0 + (x - x0) * (y1 - y0) / (x1 - x0)
      else interp1d (x1 :: xs) (y1 :: ys) x
  | [_], [y0], _ => y0
  | _, _, _ => 0

/-- The resampling tail of `curvature_based_bspline`:
`curv_int_sample = np.linspace(0, curv_int.max(), npoints)` followed by
`u_new = scipy.interpolate.interp1d(curv_int, uu)(curv_int_sample)`. -/
def resample (curv_int uu : List F) (npoints : ℕ) : List F :=
  (linspace 0 (npmax curv_int) npoints).map (interp1d curv_int uu)

section LinspaceLemmas

theorem linspace_length (a b : F) (n : ℕ) : (linspace a b n).length = n := by
  simp [linspace]

theorem linspace_head (a b : F) (n : ℕ) (hn : 1 ≤ n) :
    (linspace a b n).head? = some a := by
  cases n with
  | zero => omega
  | succ m => rw [linspace, List.range_succ_eq_map]; simp

theorem range_getLast? (n : ℕ) (hn : 1 ≤ n) :
    (List.range n).getLast? = some (n - 1) := by
  obtain ⟨m, rfl⟩ := Nat.exists_eq_add_of_le hn
  simp [List.range_succ, Nat.add_comm]

theorem linspace_getLast (a b : F) (n : ℕ) (hn : 2 ≤ n) :
    (linspace a b n).getLast? = some b := by
  have h1 : 1 ≤ n := by omega
  have hpos : (0 : ℕ) < n - 1 := by omega
  have hcast : ((n - 1 : ℕ) : F) ≠ 0 := by
    exact_mod_cast (Nat.cast_pos.mpr hpos).ne'
  rw [linspace, List.getLast?_map, range_getLast? n h1]
  simp only [Option.map_some']
  congr 1
  rw [mul_comm, mul_div_assoc, div_self hcast, mul_one]
  ring

theorem linspace_chain_le (a b : F) (n : ℕ) (hab : a ≤ b) :
    List.Chain' (· ≤ ·) (linspace a b n) := by
  rw [linspace]
  cases n with
  | zero => simp
  | succ m =>
    rw [List.chain'_map, List.chain'_range_succ]
    intro i _
    have hs : (0 : F) ≤ (b - a) / ((m + 1 - 1 : ℕ) : F) := by
      apply div_nonneg (by linarith) (by positivity)
    rw [mul_div_assoc, mul_div_assoc]
    have : (i : F) ≤ ((i + 1 : ℕ) : F) := by exact_mod_cast Nat.le_succ i
    nlinarith [mul_le_mul_of_nonneg_right this hs]

theorem linspace_mem_bounds (a b : F) (n : ℕ) (hab : a ≤ b) (x : F)
    (hx : x ∈ linspace a b n) : a ≤ x ∧ x ≤ b := by
  rw [linspace, List.mem_map] at hx
  obtain ⟨i, hi, rfl⟩ := hx
  rw [List.mem_range] at hi
  constructor
  · have : (0 : F) ≤ (i : F) * (b - a) / ((n - 1 : ℕ) : F) := by
      apply div_nonneg (mul_nonneg (by positivity) (by linarith)) (by positivity)
    linarith
  · rcases Nat.lt_or_ge n 2 with h2 | h2
    · interval_cases n
      · simp at hi
      · interval_cases i
        simpa using hab
    · have hd : (0 : F) < ((n - 1 : ℕ) : F) := by
        have : (0 : ℕ) < n - 1 := by omega
        exact_mod_cast this
      have hiF : (i : F) ≤ ((n - 1 : ℕ) : F) := by
        exact_mod_cast Nat.le_sub_one_of_lt hi
      have : (i : F) * (b - a) / ((n - 1 : ℕ) : F) ≤ (b - a) := by
        rw [div_le_iff₀ hd]
        nlinarith
      linarith

end LinspaceLemmas

section LastLemmas

@[simp] theorem lastD_nil : lastD ([] : List F) = 0 := rfl

@[simp] theorem lastD_singleton (a : F) : lastD [a] = a := rfl

@[simp] theorem lastD_cons_cons (a b : F) (l : List F) :
    lastD (a :: b :: l) = lastD (b :: l) := by
  simp [lastD]

theorem chain_head_lt_last (a b : F) (l : List F)
    (h : List.Chain' (· < ·) (a :: b :: l)) : a < lastD (b :: l) := by
  induction l generalizing a b with
  | nil => simpa using (List.chain'_cons.mp h).1
  | cons c t ih =>
    have hab := (List.chain'_cons.mp h).1
    have htail := (List.chain'_cons.mp h).2
    have := ih b c htail
    rw [lastD_cons_cons]
    exact lt_trans hab this

theorem npmax_eq_lastD (x0 : F) (xs : List F)
    (h : List.Chain' (· ≤ ·) (x0 :: xs)) : npmax (x0 :: xs) = lastD (x0 :: xs) := by
  induction xs generalizing x0 with
  | nil => simp [npmax]
  | cons x1 t ih =>
    have h01 := (List.chain'_cons.mp h).1
    have htail := (List.chain'_cons.mp h).2
    have : npmax (x0 :: x1 :: t) = npmax (x1 :: t) := by
      simp [npmax, max_eq_right h01]
    rw [this, ih x1 htail, lastD_cons_cons]

end LastLemmas

section InterpLemmas

theorem interp1d_cons_cons (x0 x1 : F) (xs : List F) (y0 y1 : F) (ys : List F)
    (x : F) :
    interp1d (x0 :: x1 :: xs) (y0 :: y1 :: ys) x =
      if x ≤ x1 then y0 + (x - x0) * (y1 - y0) / (x1 - x0)
      else interp1d (x1 :: xs) (y1 :: ys) x := rfl

theorem interp1d_single (x0 y0 x : F) : interp1d [x0] [y0] x = y0 := rfl

theorem interp1d_head (x0 : F) (xs : List F) (y0 : F) (ys : List F)
    (hx : List.Chain' (· ≤ ·) (x0 :: xs)) (hlen : xs.length = ys.length) :
    interp1d (x0 :: xs) (y0 :: ys) x0 = y0 := by
  cases xs with
  | nil =>
    cases ys with
    | nil => rfl
    | cons y1 t => simp at hlen
  | cons x1 t =>
    cases ys with
    | nil => simp at hlen
    | cons y1 t' =>
      have h01 : x0 ≤ x1 := (List.chain'_cons.mp hx).1
      rw [interp1d_cons_cons, if_pos h01]
      simp

theorem interp1d_ge_head : ∀ (xs ys : List F) (x0 y0 x : F),
    List.Chain' (· ≤ ·) (x0 :: xs) → List.Chain' (· ≤ ·) (y0 :: ys) →
    xs.length = ys.length → x0 ≤ x →
    y0 ≤ interp1d (x0 :: xs) (y0 :: ys) x := by
  intro xs
  induction xs with
  | nil =>
    intro ys x0 y0 x _ _ hlen _
    cases ys with
    | nil => rw [interp1d_single]
    | cons y1 t => simp at hlen
  | cons x1 t ih =>
    intro ys x0 y0 x hx hy hlen hle
    cases ys with
    | nil => simp at hlen
    | cons y1 t' =>
      rw [interp1d_cons_cons]
      have hx01 : x0 ≤ x1 := (List.chain'_cons.mp hx).1
      have hy01 : y0 ≤ y1 := (List.chain'_cons.mp hy).1
      by_cases hcase : x ≤ x1
      · rw [if_pos hcase]
        have hnn : 0 ≤ (x - x0) * (y1 - y0) / (x1 - x0) :=
          div_nonneg (mul_nonneg (by linarith) (by linarith)) (by linarith)
        linarith
      · rw [if_neg hcase]
        push_neg at hcase
        have htail := ih t' x1 y1 x (List.chain'_cons.mp hx).2
          (List.chain'_cons.mp hy).2 (by simpa using hlen) hcase.le
        linarith

theorem interp1d_gt_head : ∀ (xs ys : List F) (x0 y0 x : F),
    List.Chain' (· < ·) (x0 :: xs) → List.Chain' (· < ·) (y0 :: ys) →
    xs.length = ys.length → xs ≠ [] → x0 < x → x ≤ lastD (x0 :: xs) →
    y0 < interp1d (x0 :: xs) (y0 :: ys) x := by
  intro xs
  induction xs with
  | nil => intro ys x0 y0 x _ _ _ hne _ _; exact absurd rfl hne
  | cons x1 t ih =>
    intro ys x0 y0 x hx hy hlen _ hlt hub
    cases ys with
    | nil => simp at hlen
    | cons y1 t' =>
      rw [interp1d_cons_cons]
      have hx01 : x0 < x1 := (List.chain'_cons.mp hx).1
      have hy01 : y0 < y1 := (List.chain'_cons.mp hy).1
      by_cases hcase : x ≤ x1
      · rw [if_pos hcase]
        have hpos : 0 < (x - x0) * (y1 - y0) / (x1 - x0) :=
          div_pos (mul_pos (by linarith) (by linarith)) (by linarith)
        linarith
      · rw [if_neg hcase]
        push_neg at hcase
        cases t with
        | nil =>
          exfalso
          rw [lastD_cons_cons, lastD_singleton] at hub
          exact absurd hub (not_le.mpr hcase)
        | cons x2 t2 =>
          have htail := ih t' x1 y1 x (List.chain'_cons.mp hx).2
            (List.chain'_cons.mp hy).2 (by simpa using hlen) (by simp)
            hcase (by rw [lastD_cons_cons] at hub; exact hub)
          linarith

theorem interp1d_mono : ∀ (xs ys : List F) (x x' : F),
    List.Chain' (· < ·) xs → List.Chain' (· ≤ ·) ys →
    xs.length = ys.length → x ≤ x' →
    interp1d xs ys x ≤ interp1d xs ys x' := by
  intro xs
  induction xs with
  | nil =>
    intro ys x x' _ _ hlen _
    cases ys with
    | nil => exact le_refl _
    | cons y t => simp at hlen
  | cons x0 xs ih =>
    intro ys x x' hx hy hlen hxx
    cases xs with
    | nil =>
      cases ys with
      | nil => simp at hlen
      | cons y0 t =>
        cases t with
        | nil => rw [interp1d_single, interp1d_single]
        | cons y1 t' => simp at hlen
    | cons x1 t =>
      cases ys with
      | nil => simp at hlen
      | cons y0 t0 =>
        cases t0 with
        | nil => simp at hlen
        | cons y1 t' =>
          rw [interp1d_cons_cons, interp1d_cons_cons]
          have hx01 : x0 < x1 := (List.chain'_cons.mp hx).1
          have hy01 : y0 ≤ y1 := (List.chain'_cons.mp hy).1
          rcases le_or_lt x' x1 with h1 | h1
          · rw [if_pos (le_trans hxx h1), if_pos h1]
            have hstep : (x - x0) * (y1 - y0) ≤ (x' - x0) * (y1 - y0) :=
              mul_le_mul_of_nonneg_right (by linarith) (by linarith)
            have := div_le_div_of_nonneg_right hstep (by linarith : (0:F) ≤ x1 - x0)
            linarith
          · rw [if_neg (not_le.mpr h1)]
            rcases le_or_lt x x1 with h2 | h2
            · rw [if_pos h2]
              have hstep : (x - x0) * (y1 - y0) ≤ (x1 - x0) * (y1 - y0) :=
                mul_le_mul_of_nonneg_right (by linarith) (by linarith)
              have hdiv := div_le_div_of_nonneg_right hstep
                (by linarith : (0:F) ≤ x1 - x0)
              have heq : (x1 - x0) * (y1 - y0) / (x1 - x0) = y1 - y0 := by
                rw [mul_comm, mul_div_assoc, div_self (by linarith : x1 - x0 ≠ 0),
                  mul_one]
              have hge : y1 ≤ interp1d (x1 :: t) (y1 :: t') x' :=
                interp1d_ge_head t t' x1 y1 x'
                  ((List.chain'_cons.mp hx).2.imp (fun _ _ h => le_of_lt h))
                  (List.chain'_cons.mp hy).2 (by simpa using hlen) h1.le
              linarith
            · rw [if_neg (not_le.mpr h2)]
              exact ih (y1 :: t') x x' (List.chain'_cons.mp hx).2
                (List.chain'_cons.mp hy).2 (by simpa using hlen) hxx

theorem interp1d_last : ∀ (xs ys : List F) (x0 y0 : F),
    List.Chain' (· < ·) (x0 :: xs) → xs.length = ys.length →
    interp1d (x0 :: xs) (y0 :: ys) (lastD (x0 :: xs)) = lastD (y0 :: ys) := by
  intro xs
  induction xs with
  | nil =>
    intro ys x0 y0 _ hlen
    cases ys with
    | nil => rw [interp1d_single, lastD_singleton]
    | cons y1 t => simp at hlen
  | cons x1 t ih =>
    intro ys x0 y0 hx hlen
    cases ys with
    | nil => simp at hlen
    | cons y1 t' =>
      have hx01 : x0 < x1 := (List.chain'_cons.mp hx).1
      rw [lastD_cons_cons, interp1d_cons_cons, lastD_cons_cons]
      cases t with
      | nil =>
        cases t' with
        | nil =>
          rw [lastD_singleton, lastD_singleton, if_pos (le_refl x1), mul_comm,
            mul_div_assoc, div_self (by linarith : x1 - x0 ≠ 0), mul_one]
          ring
        | cons y2 t2 => simp at hlen
      | cons x2 t2 =>
        have hlt : x1 < lastD (x1 :: x2 :: t2) :=
          chain_head_lt_last x1 x2 t2 (List.chain'_cons.mp hx).2
        rw [if_neg (not_le.mpr hlt)]
        exact ih t' x1 y1 (List.chain'_cons.mp hx).2 (by simpa using hlen)

theorem interp1d_roundtrip : ∀ (cs us : List F) (c0 u0 c : F),
    List.Chain' (· < ·) (c0 :: cs) → List.Chain' (· < ·) (u0 :: us) →
    cs.length = us.length → cs ≠ [] → c0 ≤ c → c ≤ lastD (c0 :: cs) →
    interp1d (u0 :: us) (c0 :: cs) (interp1d (c0 :: cs) (u0 :: us) c) = c := by
  intro cs
  induction cs with
  | nil => intro us c0 u0 c _ _ _ hne _ _; exact absurd rfl hne
  | cons c1 t ih =>
    intro us c0 u0 c hc hu hlen _ hlb hub
    cases us with
    | nil => simp at hlen
    | cons u1 us' =>
      have hc01 : c0 < c1 := (List.chain'_cons.mp hc).1
      have hu01 : u0 < u1 := (List.chain'_cons.mp hu).1
      by_cases hcase : c ≤ c1
      · have hinner : interp1d (c0 :: c1 :: t) (u0 :: u1 :: us') c =
            u0 + (c - c0) * (u1 - u0) / (c1 - c0) := by
          rw [interp1d_cons_cons, if_pos hcase]
        have hules : u0 + (c - c0) * (u1 - u0) / (c1 - c0) ≤ u1 := by
          have hstep : (c - c0) * (u1 - u0) ≤ (c1 - c0) * (u1 - u0) :=
            mul_le_mul_of_nonneg_right (by linarith) (by linarith)
          have hdiv := div_le_div_of_nonneg_right hstep
            (by linarith : (0:F) ≤ c1 - c0)
          have heq : (c1 - c0) * (u1 - u0) / (c1 - c0) = u1 - u0 := by
            rw [mul_comm, mul_div_assoc, div_self (by linarith : c1 - c0 ≠ 0),
              mul_one]
          linarith
        rw [hinner, interp1d_cons_cons, if_pos hules]
        have h1 : c1 - c0 ≠ 0 := by linarith
        have h2 : u1 - u0 ≠ 0 := by linarith
        field_simp
        ring
      · have hinner : interp1d (c0 :: c1 :: t) (u0 :: u1 :: us') c =
            interp1d (c1 :: t) (u1 :: us') c := by
          rw [interp1d_cons_cons, if_neg hcase]
        push_neg at hcase
        have ht : t ≠ [] := by
          rintro rfl
          rw [lastD_cons_cons, lastD_singleton] at hub
          exact absurd hub (not_le.mpr hcase)
        have hub' : c ≤ lastD (c1 :: t) := by rw [lastD_cons_cons] at hub; exact hub
        have hgt : u1 < interp1d (c1 :: t) (u1 :: us') c :=
          interp1d_gt_head t us' c1 u1 c (List.chain'_cons.mp hc).2
            (List.chain'_cons.mp hu).2 (by simpa using hlen) ht hcase hub'
        rw [hinner, interp1d_cons_cons, if_neg (not_le.mpr hgt)]
        exact ih us' c1 u1 c (List.chain'_cons.mp hc).2 (List.chain'_cons.mp hu).2
          (by simpa using hlen) ht hcase.le hub'

end InterpLemmas

section CumtrapzLemmas

theorem cumtrapzAux_head (y x : List F) (acc : F) :
    (cumtrapzAux y x acc).head? = some acc := by
  rcases y with _ | ⟨y0, _ | ⟨y1, ys⟩⟩ <;> rcases x with _ | ⟨x0, _ | ⟨x1, xs⟩⟩ <;>
    simp [cumtrapzAux]

theorem cumtrapz_head (y x : List F) : (cumtrapz y x).head? = some 0 :=
  cumtrapzAux_head y x 0

theorem cumtrapzAux_chain : ∀ (x y : List F) (acc : F),
    List.Chain' (· < ·) x → (∀ v ∈ y, 0 < v) →
    List.Chain' (· < ·) (cumtrapzAux y x acc) := by
  intro x
  induction x with
  | nil =>
    intro y acc _ _
    rcases y with _ | ⟨y0, _ | ⟨y1, ys⟩⟩ <;> simp [cumtrapzAux]
  | cons x0 xs ih =>
    intro y acc hx hy
    cases xs with
    | nil => rcases y with _ | ⟨y0, _ | ⟨y1, ys⟩⟩ <;> simp [cumtrapzAux]
    | cons x1 t =>
      rcases y with _ | ⟨y0, ys⟩
      · simp [cumtrapzAux]
      rcases ys with _ | ⟨y1, ys'⟩
      · simp [cumtrapzAux]
      have hx01 : x0 < x1 := (List.chain'_cons.mp hx).1
      have hy0 : 0 < y0 := hy y0 (by simp)
      have hy1 : 0 < y1 := hy y1 (by simp)
      have hstep : acc < acc + (x1 - x0) * (y1 + y0) / 2 := by
        have : 0 < (x1 - x0) * (y1 + y0) / 2 :=
          div_pos (mul_pos (by linarith) (by linarith)) (by norm_num)
        linarith
      have htail := ih (y1 :: ys') (acc + (x1 - x0) * (y1 + y0) / 2)
        (List.chain'_cons.mp hx).2 (fun v hv => hy v (by simp [hv]))
      rw [cumtrapzAux]
      rw [List.chain'_cons']
      refine ⟨fun z hz => ?_, htail⟩
      rw [cumtrapzAux_head] at hz
      cases hz
      exact hstep

theorem cumtrapz_chain (x y : List F) (hx : List.Chain' (· < ·) x)
    (hy : ∀ v ∈ y, 0 < v) : List.Chain' (· < ·) (cumtrapz y x) :=
  cumtrapzAux_chain x y 0 hx hy

end CumtrapzLemmas

/-!
The curvature stage of `curvature_based_bspline`, over `ℝ`.

`scipy.interpolate.splprep(original, k=k, s=s)` is an external collaborator:
its result `(tck, u)` is abstracted as a `CurveModel` whose evaluators stand
for `scipy.interpolate.splev(·, tck, der=d)` for `d = 0, 1, 2` and whose
`uMin` / `uMax` stand for `u.min()` / `u.max()` (for the default normalized
parametrization these are 0 and 1).  Everything the repository's own code
does downstream of the fit is embedded concretely.
-/

/-- The fitted spline produced by `splprep`: positional evaluator (`der=0`),
first- and second-derivative evaluators (`der=1`, `der=2`), and the range of
the per-sample parameter values `u`. -/
structure CurveModel where
  ev0 : ℝ → ℝ × ℝ
  ev1 : ℝ → ℝ × ℝ
  ev2 : ℝ → ℝ × ℝ
  uMin : ℝ
  uMax : ℝ

/-- `uu = np.linspace(u.min(), u.max(), 1000)`: the dense parameter grid. -/
noncomputable def paramGrid (m : CurveModel) : List ℝ :=
  linspace m.uMin m.uMax 1000

/-- The denominator `(dx * dx + dy * dy) ** 1.5` of the curvature formula,
written exactly as in the source (`**` is the real power). -/
noncomputable def curvDenom (m : CurveModel) (u : ℝ) : ℝ :=
  ((m.ev1 u).1 * (m.ev1 u).1 + (m.ev1 u).2 * (m.ev1 u).2) ^ (1.5 : ℝ)

/-- One entry of `curv = np.abs(ddx * dy - dx * ddy) / (dx * dx + dy * dy) ** 1.5
+ smoother`, evaluated at grid parameter `u`. -/
noncomputable def curvAt (m : CurveModel) (smoother : ℝ) (u : ℝ) : ℝ :=
  |(m.ev2 u).1 * (m.ev1 u).2 - (m.ev1 u).1 * (m.ev2 u).2| / curvDenom m u + smoother

/-- The full `curv` array over the dense grid. -/
noncomputable def curvArray (m : CurveModel) (smoother : ℝ) : List ℝ :=
  (paramGrid m).map (curvAt m smoother)

/-- `curvature_based_bspline(original, npoints, k, s, smoother)` after the
`splprep` fit (whose result is `m`; the parameters `k` and `s` are consumed
by the fit alone).  Mirrors the source line by line: dense grid, biased
curvature, cumulative trapezoidal integral, evenly spaced sampling of the
integral, piecewise-linear inversion, and evaluation of the spline at the
new parameters. -/
noncomputable def curvature_based_bspline (m : CurveModel) (npoints : ℕ)
    (smoother : ℝ) : List (ℝ × ℝ) :=
  let uu := paramGrid m
  let curv := curvArray m smoother
  let curv_int := cumtrapz curv uu
  let curv_int_sample := linspace 0 (npmax curv_int) npoints
  let u_new := curv_int_sample.map (interp1d curv_int uu)
  u_new.map m.ev0

/-!
The I/O drivers (`src/airfoildb/io.py`, `src/airfoildb/cli.py`, and the
`__main__` blocks of `src/bin/bspline.py` / `src/bin/fetch.py`).

The filesystem is abstracted by a predicate `fe : String → Bool` telling
whether a path already holds a file, and a "write" is recorded as a returned
`(path, payload)` pair; a run that returns no pair for a path leaves that
path untouched.  `scipy.interpolate.splprep`'s occasional `ValueError`
(documented in the source comment of `cli.uniformize`) is modelled by letting
the conversion function return `Except FitError`.
-/

/-- The `ValueError` that `scipy.interpolate.splprep` raises on a few
airfoils, as documented in the source. -/
inductive FitError where
  | valueError
deriving DecidableEq

/-- `io.export_as_bspline(file, output_dir, func, rename_fn, force)`:
computes `output = rename_fn(output_dir, file)` and, only when the output
does not already exist or `force` is set, runs the conversion and writes the
result.  Returns `Except.ok (some (path, payload))` when a write happened,
`Except.ok none` when the guard skipped the item, and propagates the
conversion's `ValueError` otherwise (the conversion runs inside the guard). -/
def export_as_bspline {α : Type} (fe : String → Bool) (force : Bool)
    (func : String → Except FitError α) (rename_fn : String → String → String)
    (output_dir file : String) : Except FitError (Option (String × α)) :=
  let output := rename_fn output_dir file
  if !(fe output) || force then
    (func file).map (fun pts => some (output, pts))
  else
    Except.ok none

/-- One iteration of the `cli.uniformize` loop: call `export_as_bspline`
inside `try: ... except ValueError: pass` — a raised `ValueError` is
swallowed and leaves no write. -/
def uniformizeStep {α : Type} (fe : String → Bool) (force : Bool)
    (func : String → Except FitError α) (rename_fn : String → String → String)
    (output_dir : String) (file : String) : Option (String × α) :=
  match export_as_bspline fe force func rename_fn output_dir file with
  | Except.ok w => w
  | Except.error _ => none

/-- The loop of `cli.uniformize` (and the identical `__main__` loop of
`src/bin/bspline.py`): iterate `uniformizeStep` over the listed files.  The
returned list is the sequence of writes performed, in file order; nothing
else (in particular no failure report) is produced. -/
def uniformize {α : Type} (fe : String → Bool) (force : Bool)
    (func : String → Except FitError α) (rename_fn : String → String → String)
    (output_dir : String) (files : List String) : List (String × α) :=
  files.filterMap (uniformizeStep fe force func rename_fn output_dir)

/-- `url.split("/")[-1]`. -/
def urlFilename (url : String) : String := (url.splitOn "/").getLastD ""

/-- `output_dir / filename` for pathlib-style joining. -/
def joinPath (dir file : String) : String := dir ++ "/" ++ file

/-- `io.export_airfoil_data(url, output_dir, force)`: derives the target
path from the url and downloads/writes only when the target does not already
exist or `force` is set. -/
def export_airfoil_data {α : Type} (fe : String → Bool) (force : Bool)
    (download : String → α) (output_dir url : String) : Option (String × α) :=
  let output := joinPath output_dir (urlFilename url)
  if !(fe output) || force then some (output, download url) else none

/-!
The configuration surface.  One record per place where the pipeline's
parameters are fixed: the library function's own defaults and the effective
defaults of the two batch entry points.  `s` is recorded as the exact
rational `1/1000000` standing for the float literal `1e-6`.
-/

/-- A full parameter assignment for one invocation of the pipeline. -/
structure CallConfig where
  npoints : ℕ
  k : ℕ
  s : ℚ
  smoother : ℚ
  gridSize : ℕ
deriving DecidableEq

/-- Defaults of `curvature_based_bspline` itself (`src/airfoildb/bspline.py`,
identically duplicated in `src/bin/bspline.py`): `npoints=200`, `k=3`,
`s=1e-6`, `smoother=10`, and the hard-coded dense grid size 1000. -/
def bsplineDefaults : CallConfig :=
  { npoints := 200, k := 3, s := 1/1000000, smoother := 10, gridSize := 1000 }

/-- Effective defaults of the `uniformize` command in `src/airfoildb/cli.py`:
`num_points=192`, `degree=3`, `unsmoother=50` are passed as `npoints`, `k`,
`smoother`; `s` and the grid size fall back to the library defaults. -/
def cliUniformizeConfig : CallConfig :=
  { npoints := 192, k := 3, s := 1/1000000, smoother := 50, gridSize := 1000 }

/-- Effective defaults of the `__main__` block of `src/bin/bspline.py`:
`-n` defaults to 200, `-k` to 3, `-s` to 30 and is passed as `smoother`;
`s` and the grid size fall back to the library defaults. -/
def binBsplineMainConfig : CallConfig :=
  { npoints := 200, k := 3, s := 1/1000000, smoother := 30, gridSize := 1000 }

/-- The two batch entry points that call `curvature_based_bspline`. -/
def entryPointConfigs : List CallConfig :=
  [cliUniformizeConfig, binBsplineMainConfig]

/-!
The scraping filter of `src/airfoildb/webscrap.py`:
`SEARCH_PATTERN = re.compile("^\\s*([0-9\\.]+)\\s+([0-9\\.\\-]+)\\s*$")` and
`read_airfoil_data`, which keeps exactly the lines matched by the pattern
(in input order) and turns the two captured groups into a row.

Character classes are the ASCII readings of the pattern's classes; lines are
`List Char`.  Because the three classes are pairwise disjoint, the regex is
matched by a deterministic maximal-munch scan, embedded as `matchLine`; the
declarative semantics of the anchored pattern is `LineMatch`.
-/

/-- `\s` (ASCII): space, tab, newline, vertical tab, form feed, carriage
return. -/
def isSpaceB (c : Char) : Bool :=
  decide (c.toNat = 32 ∨ c.toNat = 9 ∨ c.toNat = 10 ∨ c.toNat = 11 ∨
    c.toNat = 12 ∨ c.toNat = 13)

/-- The class `[0-9\.]` of the first capture group. -/
def isDigitDotB (c : Char) : Bool :=
  decide ((48 ≤ c.toNat ∧ c.toNat ≤ 57) ∨ c.toNat = 46)

/-- The class `[0-9\.\-]` of the second capture group. -/
def isDigitDotMinusB (c : Char) : Bool :=
  decide ((48 ≤ c.toNat ∧ c.toNat ≤ 57) ∨ c.toNat = 46 ∨ c.toNat = 45)

/-- Matching one line against `^\s*([0-9\.]+)\s+([0-9\.\-]+)\s*$`:
maximal-munch scan over the five runs; returns the two captured groups. -/
def matchLine (s : List Char) : Option (List Char × List Char) :=
  let s1 := s.dropWhile isSpaceB
  let g1 := s1.takeWhile isDigitDotB
  let s2 := s1.dropWhile isDigitDotB
  let w2 := s2.takeWhile isSpaceB
  let s3 := s2.dropWhile isSpaceB
  let g2 := s3.takeWhile isDigitDotMinusB
  let s4 := s3.dropWhile isDigitDotMinusB
  if g1 ≠ [] ∧ w2 ≠ [] ∧ g2 ≠ [] ∧ s4.all isSpaceB then some (g1, g2) else none

/-- Declarative semantics of the anchored pattern: the line splits into
optional whitespace, a nonempty run of `[0-9.]` (group 1), nonempty
whitespace, a nonempty run of `[0-9.-]` (group 2), and optional whitespace. -/
def LineMatch (s g1 g2 : List Char) : Prop :=
  ∃ w1 w2 w3, s = w1 ++ g1 ++ w2 ++ g2 ++ w3 ∧
    (∀ c ∈ w1, isSpaceB c = true) ∧
    g1 ≠ [] ∧ (∀ c ∈ g1, isDigitDotB c = true) ∧
    w2 ≠ [] ∧ (∀ c ∈ w2, isSpaceB c = true) ∧
    g2 ≠ [] ∧ (∀ c ∈ g2, isDigitDotMinusB c = true) ∧
    (∀ c ∈ w3, isSpaceB c = true)

/-- `read_airfoil_data` restricted to the repository's own logic: the page
content is already split into lines; keep `match.groups()` for each line the
pattern matches, in input order.  (The final `np.asarray(..., float32)`
conversion is numpy's, outside the scraping filter.) -/
def read_airfoil_data (lines : List (List Char)) :
    List (List Char × List Char) :=
  lines.filterMap matchLine

/-- Value of a (sign-free) decimal digit string, most significant first;
digits contribute `c - '0'`. -/
def digitsVal (l : List Char) : ℚ :=
  l.foldl (fun acc c => acc * 10 + ((c.toNat - 48 : ℕ) : ℚ)) 0

/-- Value of a fractional digit string (the part after the decimal point). -/
def fracVal (l : List Char) : ℚ :=
  l.foldr (fun c acc => (((c.toNat - 48 : ℕ) : ℚ) + acc) / 10) 0

/-- Unsigned decimal reading of a string: integer part before the first
`'.'`, fractional part after it. -/
def decVal (s : List Char) : ℚ :=
  digitsVal (s.takeWhile (fun c => c ≠ '.')) +
    fracVal ((s.dropWhile (fun c => c ≠ '.')).drop 1)

/-- Signed decimal reading, as `float()` treats a leading sign. -/
def floatVal (s : List Char) : ℚ :=
  if s.head? = some '-' then -(decVal (s.drop 1))
  else if s.head? = some '+' then decVal (s.drop 1)
  else decVal s

section WebscrapLemmas

theorem space_not_digitDot (c : Char) (h : isSpaceB c = true) :
    isDigitDotB c = false := by
  simp only [isSpaceB, decide_eq_true_eq] at h
  simp only [isDigitDotB, decide_eq_false_iff_not]
  omega

theorem digitDot_not_space (c : Char) (h : isDigitDotB c = true) :
    isSpaceB c = false := by
  simp only [isDigitDotB, decide_eq_true_eq] at h
  simp only [isSpaceB, decide_eq_false_iff_not]
  omega

theorem digitDotMinus_not_space (c : Char) (h : isDigitDotMinusB c = true) :
    isSpaceB c = false := by
  simp only [isDigitDotMinusB, decide_eq_true_eq] at h
  simp only [isSpaceB, decide_eq_false_iff_not]
  omega

theorem space_not_digitDotMinus (c : Char) (h : isSpaceB c = true) :
    isDigitDotMinusB c = false := by
  simp only [isSpaceB, decide_eq_true_eq] at h
  simp only [isDigitDotMinusB, decide_eq_false_iff_not]
  omega

theorem digitDot_ne_minus (c : Char) (h : isDigitDotB c = true) : c ≠ '-' := by
  simp only [isDigitDotB, decide_eq_true_eq] at h
  intro hc
  subst hc
  simp at h

theorem digitDot_ne_plus (c : Char) (h : isDigitDotB c = true) : c ≠ '+' := by
  simp only [isDigitDotB, decide_eq_true_eq] at h
  intro hc
  subst hc
  simp at h

/-- Splitting a maximal run: if every element of `a` satisfies `p` and the
first element of `b` (if any) does not, then `takeWhile`/`dropWhile` on
`a ++ b` recover exactly `a` and `b`. -/
theorem run_split (p : Char → Bool) : ∀ (a b : List Char),
    (∀ c ∈ a, p c = true) → (∀ x, b.head? = some x → p x = false) →
    (a ++ b).takeWhile p = a ∧ (a ++ b).dropWhile p = b := by
  intro a
  induction a with
  | nil =>
    intro b _ hb
    cases b with
    | nil => simp
    | cons x b' =>
      have hx := hb x rfl
      simp [List.takeWhile_cons, List.dropWhile_cons, hx]
  | cons c a' ih =>
    intro b ha hb
    have hc := ha c (by simp)
    have := ih b (fun d hd => ha d (by simp [hd])) hb
    simp [List.takeWhile_cons, List.dropWhile_cons, hc, this.1, this.2]

theorem head?_append_of_ne_nil (a b : List Char) (ha : a ≠ []) :
    (a ++ b).head? = a.head? := by
  cases a with
  | nil => exact absurd rfl ha
  | cons x t => simp

/-- The scanner recovers any declarative decomposition: completeness half of
the parser correctness. -/
theorem matchLine_complete (s g1 g2 : List Char) (h : LineMatch s g1 g2) :
    matchLine s = some (g1, g2) := by
  obtain ⟨w1, w2, w3, hs, hw1, hg1, hg1c, hw2, hw2c, hg2, hg2c, hw3⟩ := h
  obtain ⟨d1, g1', rfl⟩ := List.exists_cons_of_ne_nil hg1
  obtain ⟨e1, w2', rfl⟩ := List.exists_cons_of_ne_nil hw2
  obtain ⟨f1, g2', rfl⟩ := List.exists_cons_of_ne_nil hg2
  have hsplit1 := run_split isSpaceB w1
    ((d1 :: g1') ++ (e1 :: w2') ++ (f1 :: g2') ++ w3) hw1
    (by
      intro x hx
      rw [head?_append_of_ne_nil _ _ (by simp),
        head?_append_of_ne_nil _ _ (by simp),
        head?_append_of_ne_nil _ _ (by simp)] at hx
      cases hx
      exact digitDot_not_space d1 (hg1c d1 (by simp)))
  have hsplit2 := run_split isDigitDotB (d1 :: g1')
    ((e1 :: w2') ++ (f1 :: g2') ++ w3) hg1c
    (by
      intro x hx
      rw [head?_append_of_ne_nil _ _ (by simp),
        head?_append_of_ne_nil _ _ (by simp)] at hx
      cases hx
      exact space_not_digitDot e1 (hw2c e1 (by simp)))
  have hsplit3 := run_split isSpaceB (e1 :: w2') ((f1 :: g2') ++ w3) hw2c
    (by
      intro x hx
      rw [head?_append_of_ne_nil _ _ (by simp)] at hx
      cases hx
      exact digitDotMinus_not_space f1 (hg2c f1 (by simp)))
  have hsplit4 := run_split isDigitDotMinusB (f1 :: g2') w3 hg2c
    (by
      intro q hq
      cases w3 with
      | nil => simp at hq
      | cons z zt =>
        simp only [List.head?_cons, Option.some.injEq] at hq
        rw [← hq]
        exact space_not_digitDotMinus z (hw3 z (by simp)))
  rw [matchLine]
  have harr : s = w1 ++ ((d1 :: g1') ++ (e1 :: w2') ++ (f1 :: g2') ++ w3) := by
    rw [hs]; simp [List.append_assoc]
  rw [harr, hsplit1.2]
  have harr2 : (d1 :: g1') ++ (e1 :: w2') ++ (f1 :: g2') ++ w3 =
      (d1 :: g1') ++ ((e1 :: w2') ++ (f1 :: g2') ++ w3) := by
    simp [List.append_assoc]
  rw [harr2, hsplit2.1, hsplit2.2]
  have harr3 : (e1 :: w2') ++ (f1 :: g2') ++ w3 =
      (e1 :: w2') ++ ((f1 :: g2') ++ w3) := by
    simp [List.append_assoc]
  rw [harr3, hsplit3.1, hsplit3.2, hsplit4.1, hsplit4.2]
  rw [if_pos]
  exact ⟨by simp, by simp, by simp, List.all_eq_true.mpr hw3⟩

/-- The scanner only returns declarative matches: soundness half of the
parser correctness. -/
theorem matchLine_sound (s g1 g2 : List Char)
    (h : matchLine s = some (g1, g2)) : LineMatch s g1 g2 := by
  rw [matchLine] at h
  split at h
  case isTrue hcond =>
    obtain ⟨hg1, hw2, hg2, hs4⟩ := hcond
    cases h
    refine ⟨s.takeWhile isSpaceB,
      ((s.dropWhile isSpaceB).dropWhile isDigitDotB).takeWhile isSpaceB,
      (((s.dropWhile isSpaceB).dropWhile isDigitDotB).dropWhile
        isSpaceB).dropWhile isDigitDotMinusB, ?_, ?_, hg1, ?_, hw2, ?_, hg2,
      ?_, ?_⟩
    · conv_lhs =>
        rw [← List.takeWhile_append_dropWhile (p := isSpaceB) (l := s),
          ← List.takeWhile_append_dropWhile (p := isDigitDotB)
            (l := s.dropWhile isSpaceB),
          ← List.takeWhile_append_dropWhile (p := isSpaceB)
            (l := (s.dropWhile isSpaceB).dropWhile isDigitDotB),
          ← List.takeWhile_append_dropWhile (p := isDigitDotMinusB)
            (l := ((s.dropWhile isSpaceB).dropWhile isDigitDotB).dropWhile
              isSpaceB)]
      simp [List.append_assoc]
    · exact fun c hc => List.mem_takeWhile_imp hc
    · exact fun c hc => List.mem_takeWhile_imp hc
    · exact fun c hc => List.mem_takeWhile_imp hc
    · exact fun c hc => List.mem_takeWhile_imp hc
    · exact fun c hc => List.all_eq_true.mp hs4 c hc
  case isFalse => exact absurd h (by simp)

theorem digitsVal_nonneg (l : List Char) : 0 ≤ digitsVal l := by
  rw [digitsVal]
  suffices h : ∀ acc : ℚ, 0 ≤ acc →
      0 ≤ l.foldl (fun acc c => acc * 10 + ((c.toNat - 48 : ℕ) : ℚ)) acc from
    h 0 le_rfl
  induction l with
  | nil => intro acc hacc; simpa using hacc
  | cons c t ih =>
    intro acc hacc
    rw [List.foldl_cons]
    exact ih _ (by positivity)

theorem fracVal_nonneg (l : List Char) : 0 ≤ fracVal l := by
  rw [fracVal]
  induction l with
  | nil => simp
  | cons c t ih =>
    rw [List.foldr_cons]
    positivity

theorem decVal_nonneg (s : List Char) : 0 ≤ decVal s :=
  add_nonneg (digitsVal_nonneg _) (fracVal_nonneg _)

theorem floatVal_nonneg_of_unsigned (s : List Char)
    (h : ∀ x, s.head? = some x → x ≠ '-' ∧ x ≠ '+') : 0 ≤ floatVal s := by
  rw [floatVal]
  cases s with
  | nil => simp [decVal, digitsVal, fracVal]
  | cons c t =>
    have hc := h c rfl
    rw [if_neg (by simpa using hc.1), if_neg (by simpa using hc.2)]
    exact decVal_nonneg _

end WebscrapLemmas

/-!
The claims.
-/

/-- Claim C1: for every fitted curve model and every requested `npoints`,
`curvature_based_bspline` returns exactly `npoints` output points (a list of
`npoints` 2D rows); in particular for `npoints` in 10, 50, 200, 1000. -/
theorem c1_output_length (m : CurveModel) (npoints : ℕ) (smoother : ℝ) :
    (curvature_based_bspline m npoints smoother).length = npoints := by
  rw [curvature_based_bspline]
  simp [List.length_map, linspace_length]

/-- Claim C2: the `curv` array computed over the dense parameter grid equals,
entry by entry, the specified curvature
`|x'(u)·y''(u) − x''(u)·y'(u)| / (x'(u)² + y'(u)²)^1.5 + smoother`. -/
theorem c2_curvature_formula (m : CurveModel) (smoother : ℝ) :
    curvArray m smoother = (paramGrid m).map (fun u =>
      |(m.ev1 u).1 * (m.ev2 u).2 - (m.ev2 u).1 * (m.ev1 u).2| /
        ((m.ev1 u).1 ^ 2 + (m.ev1 u).2 ^ 2) ^ (1.5 : ℝ) + smoother) := by
  rw [curvArray]
  congr 1
  funext u
  rw [curvAt, curvDenom, abs_sub_comm]
  have hsq : (m.ev1 u).1 * (m.ev1 u).1 + (m.ev1 u).2 * (m.ev1 u).2 =
      (m.ev1 u).1 ^ 2 + (m.ev1 u).2 ^ 2 := by ring
  rw [hsq]

/-- Claim C3: for a strictly increasing parameter grid of length ≥ 2 and a
strictly positive curvature sample, the cumulative trapezoidal integral
starts at exactly 0 and is strictly increasing. -/
theorem c3_cumtrapz_monotone (x y : List F) (hx : List.Chain' (· < ·) x)
    (hy : ∀ v ∈ y, 0 < v) (hlen : y.length = x.length) (h2 : 2 ≤ x.length) :
    (cumtrapz y x).head? = some 0 ∧ List.Chain' (· < ·) (cumtrapz y x) :=
  ⟨cumtrapz_head y x, cumtrapz_chain x y hx hy⟩

/-- Witness for C3 at the grid `[0, 1, 2]` with samples `[1, 1, 1]`. -/
theorem c3_cumtrapz_monotone_witness :
    List.Chain' (· < ·) ([0, 1, 2] : List ℚ) ∧
    (∀ v ∈ ([1, 1, 1] : List ℚ), 0 < v) ∧
    ([1, 1, 1] : List ℚ).length = ([0, 1, 2] : List ℚ).length ∧
    2 ≤ ([0, 1, 2] : List ℚ).length ∧
    ((cumtrapz ([1, 1, 1] : List ℚ) [0, 1, 2]).head? = some 0 ∧
      List.Chain' (· < ·) (cumtrapz ([1, 1, 1] : List ℚ) [0, 1, 2])) :=
  ⟨by norm_num [List.chain'_cons], by decide, by decide, by decide,
    c3_cumtrapz_monotone [0, 1, 2] [1, 1, 1] (by norm_num [List.chain'_cons])
      (by decide) (by decide) (by decide)⟩

/-- Counterexample to Claim C4 as stated: at `npoints = 1` the sample grid
`np.linspace(0, M, 1)` is `[0]`, so the resampled sequence is `[u_min]` and
its last value is not `u_max`, even for a valid strictly increasing
cumulative array starting at 0. -/
theorem c4_resample_counterexample :
    List.Chain' (· < ·) ([0, 1] : List ℚ) ∧
    ([0, 1] : List ℚ).head? = some 0 ∧
    List.Chain' (· < ·) ([0, 1] : List ℚ) ∧
    (resample ([0, 1] : List ℚ) [0, 1] 1).getLast? ≠
      some (lastD ([0, 1] : List ℚ)) := by
  refine ⟨by norm_num [List.chain'_cons], by decide,
    by norm_num [List.chain'_cons], ?_⟩
  norm_num [resample, linspace, npmax, lastD, interp1d, List.range_succ]

/-- Claim C4 (amended: for `npoints ≥ 2`): given a strictly increasing
cumulative array starting at 0 over a strictly increasing parameter grid,
the resampling step produces a non-decreasing sequence of exactly `npoints`
parameter values, each within `[u_min, u_max]`, whose first value is `u_min`
and whose last value is `u_max`. -/
theorem c4_resample_spec (c0 : F) (cs : List F) (u0 : F) (us : List F) (n : ℕ)
    (hc : List.Chain' (· < ·) (c0 :: cs)) (hu : List.Chain' (· < ·) (u0 :: us))
    (hlen : cs.length = us.length) (hne : cs ≠ []) (h0 : c0 = 0) (hn : 2 ≤ n) :
    (resample (c0 :: cs) (u0 :: us) n).length = n ∧
    List.Chain' (· ≤ ·) (resample (c0 :: cs) (u0 :: us) n) ∧
    (∀ v ∈ resample (c0 :: cs) (u0 :: us) n, u0 ≤ v ∧ v ≤ lastD (u0 :: us)) ∧
    (resample (c0 :: cs) (u0 :: us) n).head? = some u0 ∧
    (resample (c0 :: cs) (u0 :: us) n).getLast? = some (lastD (u0 :: us)) := by
  subst h0
  obtain ⟨c1, t, rfl⟩ := List.exists_cons_of_ne_nil hne
  have hcle : List.Chain' (· ≤ ·) ((0:F) :: c1 :: t) :=
    hc.imp (fun _ _ h => le_of_lt h)
  have hule : List.Chain' (· ≤ ·) (u0 :: us) := hu.imp (fun _ _ h => le_of_lt h)
  have hlen' : (c1 :: t).length = us.length := hlen
  have hlenc : ((0:F) :: c1 :: t).length = (u0 :: us).length := by
    simpa using hlen
  have hM : npmax ((0:F) :: c1 :: t) = lastD ((0:F) :: c1 :: t) :=
    npmax_eq_lastD 0 (c1 :: t) hcle
  have hMpos : (0:F) ≤ npmax ((0:F) :: c1 :: t) := by
    rw [hM]
    exact (chain_head_lt_last 0 c1 t hc).le
  refine ⟨?_, ?_, ?_, ?_, ?_⟩
  · rw [resample]
    simp [List.length_map, linspace_length]
  · rw [resample]
    exact List.chain'_map_of_chain' _
      (fun a b hab => interp1d_mono ((0:F) :: c1 :: t) (u0 :: us) a b hc hule
        hlenc hab)
      (linspace_chain_le 0 (npmax ((0:F) :: c1 :: t)) n hMpos)
  · intro v hv
    rw [resample, List.mem_map] at hv
    obtain ⟨c, hcmem, rfl⟩ := hv
    have hbc := linspace_mem_bounds 0 (npmax ((0:F) :: c1 :: t)) n hMpos c hcmem
    constructor
    · exact interp1d_ge_head (c1 :: t) us 0 u0 c hcle hule hlen' hbc.1
    · have hm2 := interp1d_mono ((0:F) :: c1 :: t) (u0 :: us) c
        (lastD ((0:F) :: c1 :: t)) hc hule hlenc (hM ▸ hbc.2)
      rwa [interp1d_last (c1 :: t) us 0 u0 hc hlen'] at hm2
  · rw [resample, List.head?_map, linspace_head 0 _ n (by omega),
      Option.map_some']
    rw [interp1d_head 0 (c1 :: t) u0 us hcle hlen']
  · rw [resample, List.getLast?_map, linspace_getLast 0 _ n hn,
      Option.map_some', hM, interp1d_last (c1 :: t) us 0 u0 hc hlen']

/-- Witness for the amended C4 at the cumulative array `[0, 1]`, grid
`[3, 7]`, `npoints = 3`. -/
theorem c4_resample_spec_witness :
    List.Chain' (· < ·) ([0, 1] : List ℚ) ∧
    List.Chain' (· < ·) ([3, 7] : List ℚ) ∧
    (((resample ([0, 1] : List ℚ) [3, 7] 3).length = 3 ∧
      List.Chain' (· ≤ ·) (resample ([0, 1] : List ℚ) [3, 7] 3) ∧
      (∀ v ∈ resample ([0, 1] : List ℚ) [3, 7] 3,
        (3:ℚ) ≤ v ∧ v ≤ lastD ([3, 7] : List ℚ)) ∧
      (resample ([0, 1] : List ℚ) [3, 7] 3).head? = some 3 ∧
      (resample ([0, 1] : List ℚ) [3, 7] 3).getLast? =
        some (lastD ([3, 7] : List ℚ)))) :=
  ⟨by norm_num [List.chain'_cons], by norm_num [List.chain'_cons],
    c4_resample_spec 0 [1] 3 [7] 3 (by norm_num [List.chain'_cons])
      (by norm_num [List.chain'_cons]) (by decide) (by decide) rfl
      (by decide)⟩

/-- Claim C5: each of the `npoints` evenly spaced targets `c` over
`[0, CumulativeArray.last]`, mapped through the piecewise-linear inverse of
the cumulative array to a parameter `u` and back through the piecewise-linear
interpolant of the cumulative array, returns exactly `c` (exact
arithmetic). -/
theorem c5_roundtrip (c0 : F) (cs : List F) (u0 : F) (us : List F) (n : ℕ)
    (hc : List.Chain' (· < ·) (c0 :: cs)) (hu : List.Chain' (· < ·) (u0 :: us))
    (hlen : cs.length = us.length) (hne : cs ≠ []) (h0 : c0 = 0) :
    ∀ c ∈ linspace 0 (npmax (c0 :: cs)) n,
      interp1d (u0 :: us) (c0 :: cs) (interp1d (c0 :: cs) (u0 :: us) c) = c := by
  subst h0
  intro c hcmem
  obtain ⟨c1, t, rfl⟩ := List.exists_cons_of_ne_nil hne
  have hcle : List.Chain' (· ≤ ·) ((0:F) :: c1 :: t) :=
    hc.imp (fun _ _ h => le_of_lt h)
  have hM : npmax ((0:F) :: c1 :: t) = lastD ((0:F) :: c1 :: t) :=
    npmax_eq_lastD 0 (c1 :: t) hcle
  have hMpos : (0:F) ≤ npmax ((0:F) :: c1 :: t) := by
    rw [hM]
    exact (chain_head_lt_last 0 c1 t hc).le
  have hbc := linspace_mem_bounds 0 (npmax ((0:F) :: c1 :: t)) n hMpos c hcmem
  exact interp1d_roundtrip (c1 :: t) us 0 u0 c hc hu hlen (by simp) hbc.1
    (hM ▸ hbc.2)

/-- Witness for C5 at the cumulative array `[0, 2]`, grid `[0, 1]`,
`npoints = 3`, target `c = 1`. -/
theorem c5_roundtrip_witness :
    List.Chain' (· < ·) ([0, 2] : List ℚ) ∧
    List.Chain' (· < ·) ([0, 1] : List ℚ) ∧
    (1:ℚ) ∈ linspace 0 (npmax ([0, 2] : List ℚ)) 3 ∧
    interp1d ([0, 1] : List ℚ) [0, 2] (interp1d ([0, 2] : List ℚ) [0, 1] 1) = 1 :=
  ⟨by norm_num [List.chain'_cons], by norm_num [List.chain'_cons],
    by norm_num [linspace, npmax, List.range_succ],
    c5_roundtrip 0 [2] 0 [1] 3 (by norm_num [List.chain'_cons])
      (by norm_num [List.chain'_cons]) (by decide) (by decide) rfl 1
      (by norm_num [linspace, npmax, List.range_succ])⟩

/-- Claim C6: when the spline fit of one item of a batch raises `ValueError`,
the batch driver writes nothing for that item and processes every remaining
item exactly as if the failing item were absent; the failure never aborts
the batch and no failure report is produced (the write list is the entire
output). -/
theorem c6_uniformize_skips {α : Type} (fe : String → Bool) (force : Bool)
    (func : String → Except FitError α) (rename_fn : String → String → String)
    (output_dir : String) (pre post : List String) (file : String)
    (e : FitError) (hfail : func file = Except.error e) :
    uniformize fe force func rename_fn output_dir (pre ++ file :: post) =
      uniformize fe force func rename_fn output_dir pre ++
        uniformize fe force func rename_fn output_dir post := by
  simp only [uniformize]
  rw [show pre ++ file :: post = pre ++ [file] ++ post from by simp]
  rw [List.filterMap_append, List.filterMap_append]
  have hnone : uniformizeStep fe force func rename_fn output_dir file =
      (none : Option (String × α)) := by
    rw [uniformizeStep, export_as_bspline]
    by_cases hcond : (!fe (rename_fn output_dir file) || force) = true
    · rw [if_pos hcond, hfail]; rfl
    · rw [if_neg hcond]
  rw [List.filterMap_cons_none hnone, List.filterMap_nil]
  simp

/-- Witness for C6: a three-file batch whose middle item fails to fit. -/
theorem c6_uniformize_skips_witness :
    (fun s : String => if s = "b" then Except.error FitError.valueError
      else Except.ok (0 : ℕ)) "b" = Except.error FitError.valueError ∧
    uniformize (fun _ => false) false
      (fun s => if s = "b" then Except.error FitError.valueError
        else Except.ok (0 : ℕ))
      (fun d f => d ++ "/uniform_" ++ f) "out" (["a"] ++ "b" :: ["c"]) =
      uniformize (fun _ => false) false
        (fun s => if s = "b" then Except.error FitError.valueError
          else Except.ok (0 : ℕ))
        (fun d f => d ++ "/uniform_" ++ f) "out" ["a"] ++
        uniformize (fun _ => false) false
          (fun s => if s = "b" then Except.error FitError.valueError
            else Except.ok (0 : ℕ))
          (fun d f => d ++ "/uniform_" ++ f) "out" ["c"] :=
  ⟨by rfl,
    c6_uniformize_skips (fun _ => false) false
      (fun s => if s = "b" then Except.error FitError.valueError
        else Except.ok (0 : ℕ))
      (fun d f => d ++ "/uniform_" ++ f) "out" ["a"] ["c"] "b"
      FitError.valueError (by rfl)⟩

/-- Counterexample to Claim C7 as stated: it is not the case that every
entry point uses the npoints default 200 together with a bias default of 10
or 50 — the cli entry point defaults to `num_points = 192`, and the
`src/bin/bspline.py` entry point defaults to `-s 30` as its bias. -/
theorem c7_config_counterexample :
    ¬ (∀ c ∈ entryPointConfigs, (c.smoother = 10 ∨ c.smoother = 50) ∧
        c.npoints = 200) := by
  intro h
  have h192 := (h cliUniformizeConfig (by simp [entryPointConfigs])).2
  simp [cliUniformizeConfig] at h192

/-- Claim C7 (amended): the library function's defaults are `npoints = 200`,
`k = 3`, `s = 1e-6`, `smoother = 10`, grid size 1000; exactly one call site
(the cli `uniformize` command) uses the alternate bias default 50
(`unsmoother`), but with `num_points` defaulting to 192; the other entry
point (`src/bin/bspline.py`) keeps `npoints = 200` but defaults its bias to
30; both entry points use `k = 3` and inherit `s = 1e-6` and grid size
1000. -/
theorem c7_config_amended :
    bsplineDefaults = ⟨200, 3, 1/1000000, 10, 1000⟩ ∧
    cliUniformizeConfig.smoother = 50 ∧ cliUniformizeConfig.npoints = 192 ∧
    binBsplineMainConfig.smoother = 30 ∧ binBsplineMainConfig.npoints = 200 ∧
    (∀ c ∈ entryPointConfigs, c.k = 3 ∧ c.s = 1/1000000 ∧
      c.gridSize = 1000) ∧
    (∃ c ∈ entryPointConfigs, c.smoother = 50) ∧
    (∀ c ∈ entryPointConfigs, c.smoother = 50 → c = cliUniformizeConfig) := by
  refine ⟨rfl, rfl, rfl, rfl, rfl, ?_, ⟨cliUniformizeConfig,
    by simp [entryPointConfigs], rfl⟩, ?_⟩
  · intro c hc
    simp only [entryPointConfigs, List.mem_cons, List.mem_singleton,
      List.not_mem_nil, or_false] at hc
    rcases hc with rfl | rfl <;> exact ⟨rfl, rfl, rfl⟩
  · intro c hc hs
    simp only [entryPointConfigs, List.mem_cons, List.mem_singleton,
      List.not_mem_nil, or_false] at hc
    rcases hc with rfl | rfl
    · rfl
    · exfalso
      rw [show binBsplineMainConfig.smoother = 30 from rfl] at hs
      norm_num at hs

/-- Claim C8: wherever the fitted curve's velocity `(x'(u), y'(u))` is not
`(0, 0)`, the curvature denominator `(x'² + y'²)^1.5` is nonzero — so the
unguarded division is well-defined — and the biased curvature entry is
strictly positive whenever `smoother > 0`; conversely at a zero-velocity
parameter the denominator is exactly zero, so that is the only undefined
input of the computation. -/
theorem c8_curvature_welldef (m : CurveModel) (u : ℝ) (smoother : ℝ) :
    (¬((m.ev1 u).1 = 0 ∧ (m.ev1 u).2 = 0) →
      curvDenom m u ≠ 0 ∧ (0 < smoother → 0 < curvAt m smoother u)) ∧
    ((m.ev1 u).1 = 0 ∧ (m.ev1 u).2 = 0 → curvDenom m u = 0) := by
  constructor
  · intro hvel
    have hbase : 0 < (m.ev1 u).1 * (m.ev1 u).1 + (m.ev1 u).2 * (m.ev1 u).2 := by
      rcases not_and_or.mp hvel with h | h
      · nlinarith [mul_self_pos.mpr h, mul_self_nonneg (m.ev1 u).2]
      · nlinarith [mul_self_pos.mpr h, mul_self_nonneg (m.ev1 u).1]
    have hd : 0 < curvDenom m u := by
      rw [curvDenom]
      exact Real.rpow_pos_of_pos hbase _
    refine ⟨hd.ne', fun hs => ?_⟩
    rw [curvAt]
    have habs : 0 ≤ |(m.ev2 u).1 * (m.ev1 u).2 - (m.ev1 u).1 * (m.ev2 u).2| /
        curvDenom m u := div_nonneg (abs_nonneg _) hd.le
    linarith
  · rintro ⟨h1, h2⟩
    rw [curvDenom, h1, h2, show (0:ℝ) * 0 + 0 * 0 = 0 from by ring]
    exact Real.zero_rpow (by norm_num)

/-- A concrete fitted model with unit horizontal velocity everywhere. -/
noncomputable def unitVelocityModel : CurveModel :=
  { ev0 := fun _ => (0, 0), ev1 := fun _ => (1, 0), ev2 := fun _ => (0, 0),
    uMin := 0, uMax := 1 }

/-- Witness for C8 at the unit-velocity model. -/
theorem c8_curvature_welldef_witness :
    ¬((unitVelocityModel.ev1 0).1 = 0 ∧ (unitVelocityModel.ev1 0).2 = 0) ∧
    (curvDenom unitVelocityModel 0 ≠ 0 ∧
      (0 < (10:ℝ) → 0 < curvAt unitVelocityModel 10 0)) :=
  ⟨by simp [unitVelocityModel],
    (c8_curvature_welldef unitVelocityModel 0 10).1
      (by simp [unitVelocityModel])⟩

/-- Claim C9: if the target output file already exists and `force` is false,
`export_as_bspline` and `export_airfoil_data` perform no write (so the
existing file is untouched and the conversion/download result is never
used); a write happens exactly when the target does not exist or `force` is
true (given, for the fallible conversion, that it succeeds). -/
theorem c9_export_guard {α : Type} (fe : String → Bool) (force : Bool)
    (func : String → Except FitError α) (rename_fn : String → String → String)
    (download : String → α) (output_dir file url : String) :
    (fe (rename_fn output_dir file) = true → force = false →
      export_as_bspline fe force func rename_fn output_dir file =
        Except.ok none) ∧
    (fe (joinPath output_dir (urlFilename url)) = true → force = false →
      export_airfoil_data fe force download output_dir url = none) ∧
    (∀ pts, func file = Except.ok pts →
      (export_as_bspline fe force func rename_fn output_dir file =
          Except.ok (some (rename_fn output_dir file, pts)) ↔
        (fe (rename_fn output_dir file) = false ∨ force = true))) ∧
    ((∃ w, export_airfoil_data fe force download output_dir url = some w) ↔
      (fe (joinPath output_dir (urlFilename url)) = false ∨ force = true)) := by
  refine ⟨?_, ?_, ?_, ?_⟩
  · intro h1 h2
    simp [export_as_bspline, h1, h2]
  · intro h1 h2
    simp [export_airfoil_data, h1, h2]
  · intro pts hok
    cases hfe : fe (rename_fn output_dir file) <;> cases force <;>
      simp [export_as_bspline, hfe, hok, Except.map]
  · cases hfe : fe (joinPath output_dir (urlFilename url)) <;> cases force <;>
      simp [export_airfoil_data, hfe]

/-- Witness for C9: an existing target with `force = false` is skipped. -/
theorem c9_export_guard_witness :
    (fun _ : String => true) ((fun d f => d ++ "/uniform_" ++ f) "out" "a.dat")
      = true ∧
    export_as_bspline (fun _ => true) false (fun _ => Except.ok (0 : ℕ))
      (fun d f => d ++ "/uniform_" ++ f) "out" "a.dat" = Except.ok none :=
  ⟨rfl,
    (c9_export_guard (fun _ => true) false (fun _ => Except.ok (0 : ℕ))
      (fun d f => d ++ "/uniform_" ++ f) (fun _ => (0 : ℕ)) "out" "a.dat"
      "u").1 rfl rfl⟩

/-- Claim C10: a line is kept by `read_airfoil_data` exactly when it matches
`^\s*([0-9\.]+)\s+([0-9\.\-]+)\s*$` (the scanner agrees with the declarative
reading of the pattern); every kept row's first group consists of digits and
dots only — no minus sign — so its decimal value is non-negative; and kept
rows appear in input-line order (line-by-line locality of the filter). -/
theorem c10_read_pattern :
    (∀ s g1 g2 : List Char, matchLine s = some (g1, g2) ↔ LineMatch s g1 g2) ∧
    (∀ (lines : List (List Char)) p, p ∈ read_airfoil_data lines →
      (∀ c ∈ p.1, isDigitDotB c = true ∧ c ≠ '-') ∧ 0 ≤ floatVal p.1) ∧
    (∀ pre post : List (List Char),
      read_airfoil_data (pre ++ post) =
        read_airfoil_data pre ++ read_airfoil_data post) := by
  refine ⟨fun s g1 g2 => ⟨matchLine_sound s g1 g2, matchLine_complete s g1 g2⟩,
    ?_, ?_⟩
  · intro lines p hp
    rw [read_airfoil_data, List.mem_filterMap] at hp
    obtain ⟨l, _, hm⟩ := hp
    obtain ⟨g1, g2⟩ := p
    obtain ⟨w1, w2, w3, _, _, _, hg1c, _⟩ := matchLine_sound l g1 g2 hm
    refine ⟨fun c hc => ⟨hg1c c hc, digitDot_ne_minus c (hg1c c hc)⟩, ?_⟩
    apply floatVal_nonneg_of_unsigned
    intro x hx
    have hxmem : x ∈ g1 := by
      cases g1 with
      | nil => simp at hx
      | cons a t =>
        simp only [List.head?_cons, Option.some.injEq] at hx
        simp [← hx]
    exact ⟨digitDot_ne_minus x (hg1c x hxmem), digitDot_ne_plus x (hg1c x hxmem)⟩
  · intro pre post
    rw [read_airfoil_data, read_airfoil_data, read_airfoil_data,
      List.filterMap_append]

/-- Witness for C10 at the line `"1.0 -.5"`. -/
theorem c10_read_pattern_witness :
    (['1', '.', '0'], ['-', '.', '5']) ∈
      read_airfoil_data [['1', '.', '0', ' ', '-', '.', '5']] ∧
    ((∀ c ∈ ['1', '.', '0'], isDigitDotB c = true ∧ c ≠ '-') ∧
      0 ≤ floatVal ['1', '.', '0']) :=
  ⟨by decide,
    c10_read_pattern.2.1 [['1', '.', '0', ' ', '-', '.', '5']]
      (['1', '.', '0'], ['-', '.', '5']) (by decide)⟩

end AirfoilDB
